import Mathlib

/-!
Shallow embedding of the dev-event application's persistence core:
the Event / Booking pre-save validation pipeline
(src/database/event.model.ts, src/database/booking.model.ts) and the
MongoDB connection manager (src/lib/mongodb.ts).

Strings are modelled as Lean `String`s and character classes through
`Char.toNat` code points.  JavaScript whitespace (`\s`, `String.trim`)
is modelled by the common ASCII whitespace characters (space, tab,
line feed, vertical tab, form feed, carriage return); the inputs of
interest are ASCII.
-/

namespace DevEvent

/-- Model of the JavaScript `\s` character class (and of the character
set stripped by `String.prototype.trim`), restricted to its ASCII
members: space, tab, line feed, vertical tab, form feed, carriage
return. -/
def jsSpace (c : Char) : Bool :=
  c.toNat == 32 || (9 ≤ c.toNat && c.toNat ≤ 13)

/-- The character class `[a-z]`. -/
def lowerAlpha (c : Char) : Bool :=
  97 ≤ c.toNat && c.toNat ≤ 122

/-- The character class `[0-9]`. -/
def digitCh (c : Char) : Bool :=
  48 ≤ c.toNat && c.toNat ≤ 57

/-- The character class `[a-z0-9\s-]` kept by the slug transform's
`replace(/[^a-z0-9\s-]/g, '')` step. -/
def slugKeep (c : Char) : Bool :=
  lowerAlpha c || digitCh c || jsSpace c || c.toNat == 45

/-- `collapseRuns p r inRun l` replaces every maximal run of characters
satisfying `p` in `l` by the single character `r`; `inRun` records
whether the previous character belonged to such a run.  This models the
global regex replacements `replace(/\s+/g, '-')` and
`replace(-+ for a single -, globally)` of the slug transform. -/
def collapseRuns (p : Char → Bool) (r : Char) : Bool → List Char → List Char
  | _, [] => []
  | inRun, c :: cs =>
    if p c then
      if inRun then collapseRuns p r true cs
      else r :: collapseRuns p r true cs
    else c :: collapseRuns p r false cs

/-- Model of `replace(/^--|-$/g, '')`: the `^--` alternative removes a
leading pair of hyphens (only a pair — the anchor `^` matches once), and
the `-$` alternative removes a trailing hyphen. -/
def stripEdgeHyphens (l : List Char) : List Char :=
  let l1 :=
    match l with
    | '-' :: '-' :: rest => rest
    | other => other
  if l1.getLast? = some '-' then l1.dropLast else l1

/-- Model of JavaScript `String.prototype.trim` (ASCII whitespace). -/
def jsTrim (l : List Char) : List Char :=
  ((l.dropWhile jsSpace).reverse.dropWhile jsSpace).reverse

/-- Model of the slug derivation in `EventSchema.pre('save')`
(src/database/event.model.ts):
`title.toLowerCase().replace(/[^a-z0-9\s-]/g, '').replace(/\s+/g, '-')
then collapse hyphen runs to one hyphen, apply `replace(^-- or -$, '')`
globally, and `trim()`. -/
def slugify (s : String) : String :=
  String.mk (jsTrim (stripEdgeHyphens
    (collapseRuns (fun c => c.toNat == 45) '-' false
      (collapseRuns jsSpace '-' false
        ((s.data.map Char.toLower).filter slugKeep)))))

/-- Model of the time format regex `/^([01]?[0-9]|2[0-3]):[0-5][0-9]$/`
tested in `EventSchema.pre('save')`.  A match is either
`[0-9]:[0-5][0-9]` (the optional `[01]?` absent) or
`([01][0-9]|2[0-3]):[0-5][0-9]`. -/
def timeFormatOk (s : String) : Bool :=
  match s.data with
  | [h, c, m1, m2] =>
    digitCh h && c.toNat == 58 &&
      (48 ≤ m1.toNat && m1.toNat ≤ 53) && digitCh m2
  | [h1, h2, c, m1, m2] =>
    ((h1.toNat == 48 || h1.toNat == 49) && digitCh h2 ||
      h1.toNat == 50 && (48 ≤ h2.toNat && h2.toNat ≤ 51)) &&
    c.toNat == 58 &&
      (48 ≤ m1.toNat && m1.toNat ≤ 53) && digitCh m2
  | _ => false

/-- Spec-side definition (from the claim's words, for comparison with
`timeFormatOk`): strict two-digit 24-hour `HH:MM` — two digit
characters whose value is at most 23, a colon, and two digit characters
whose value is at most 59. -/
def specStrictHHMM (s : String) : Bool :=
  match s.data with
  | [h1, h2, c, m1, m2] =>
    digitCh h1 && digitCh h2 && c.toNat == 58 && digitCh m1 && digitCh m2 &&
      decide ((h1.toNat - 48) * 10 + (h2.toNat - 48) ≤ 23) &&
      decide ((m1.toNat - 48) * 10 + (m2.toNat - 48) ≤ 59)
  | _ => false

/-- Spec-side definition: the one-digit-hour form `H:MM` — a single
digit hour, a colon, and two digit characters whose value is at most
59. -/
def specSingleDigitHourHMM (s : String) : Bool :=
  match s.data with
  | [h, c, m1, m2] =>
    digitCh h && c.toNat == 58 && digitCh m1 && digitCh m2 &&
      decide ((m1.toNat - 48) * 10 + (m2.toNat - 48) ≤ 59)
  | _ => false

/-- The character class `[^\s@]` of the email regex. -/
def emailAtomCh (c : Char) : Bool :=
  !(jsSpace c) && c.toNat != 64

/-- Splits a character list at the first occurrence of the character
with code point `t`; returns the pieces before and after it, or `none`
when `t` does not occur. -/
def splitAtCode (t : Nat) : List Char → Option (List Char × List Char)
  | [] => none
  | c :: cs =>
    if c.toNat == t then some ([], cs)
    else
      match splitAtCode t cs with
      | none => none
      | some (p, q) => some (c :: p, q)

/-- `dotWithSuffix l` holds when `l` contains a `'.'` that is followed
by at least one further character, i.e. `l = m ++ '.' :: b` with `b`
non-empty. -/
def dotWithSuffix : List Char → Bool
  | [] => false
  | c :: cs => (c.toNat == 46 && !cs.isEmpty) || dotWithSuffix cs

/-- Model of the email regex `/^[^\s@]+@[^\s@]+\.[^\s@]+$/` used both as
the `email` schema validator and in `BookingSchema.pre('save')`
(src/database/booking.model.ts).  The string must consist of a
non-empty `[^\s@]` block, a literal `@`, and a remainder of `[^\s@]`
characters that splits as `middle ++ '.' ++ rest` with `middle` and
`rest` non-empty. -/
def emailFormatOk (s : String) : Bool :=
  match splitAtCode 64 s.data with
  | none => false
  | some (localPart, domainPart) =>
    !localPart.isEmpty && localPart.all emailAtomCh &&
      domainPart.all emailAtomCh &&
      (match domainPart with
       | [] => false
       | _ :: tail => dotWithSuffix tail)

/-!
### Calendar model for date normalization

`EventSchema.pre('save')` runs `new Date(this.date)`, rejects when the
result is an invalid date, and otherwise stores
`parsedDate.toISOString().split('T')[0]`.  The model covers the
date-only branch of the ECMAScript Date Time String Format
(`YYYY-MM-DD`, parsed as UTC midnight, with four-digit years
0000–9999); the engine rejects out-of-range components
(month 00, day 00, day beyond the month's length).  Days are counted
from 0000-01-01; day 719528 is the Unix epoch 1970-01-01. -/

/-- Proleptic Gregorian leap-year rule (as used by ECMAScript). -/
def isLeapYear (y : Nat) : Bool :=
  (y % 4 == 0 && y % 100 != 0) || y % 400 == 0

/-- Length of month `m` (1–12) of year `y` in days. -/
def daysInMonth (y m : Nat) : Nat :=
  if m = 2 then (if isLeapYear y then 29 else 28)
  else if m = 4 || m = 6 || m = 9 || m = 11 then 30
  else 31

/-- Length of year `y` in days. -/
def daysInYear (y : Nat) : Nat :=
  if isLeapYear y then 366 else 365

/-- Number of leap years `k` with `k < y` (year 0 is a leap year). -/
def leapsBefore (y : Nat) : Nat :=
  (y + 3) / 4 - (y + 99) / 100 + (y + 399) / 400

/-- Day number of January 1 of year `y`, counting from 0000-01-01. -/
def yearStart (y : Nat) : Nat :=
  365 * y + leapsBefore y

/-- Number of days of year `y` that precede month `m` (1–12). -/
def monthStart (y : Nat) : Nat → Nat
  | 0 => 0
  | 1 => 0
  | Nat.succ m => monthStart y m + daysInMonth y m

/-- Day number (from 0000-01-01) of the calendar date `y-m-d`. -/
def dayFromCivil (y m d : Nat) : Nat :=
  yearStart y + monthStart y m + (d - 1)

/-- Fuel-driven year search: starting from year `y`, peel whole years
off the day offset `n` until less than one year remains. -/
def findYearAux : Nat → Nat → Nat → Nat × Nat
  | 0, y, n => (y, n)
  | f + 1, y, n =>
    if n < daysInYear y then (y, n)
    else findYearAux f (y + 1) (n - daysInYear y)

/-- Month search within year `y`: starting from month `m`, peel whole
months off the day offset `n`, at most `count` times. -/
def findMonthAux : Nat → Nat → Nat → Nat → Nat × Nat
  | 0, _, m, n => (m, n)
  | c + 1, y, m, n =>
    if n < daysInMonth y m then (m, n)
    else findMonthAux c y (m + 1) (n - daysInMonth y m)

/-- Calendar date `(y, m, d)` of day number `n` (from 0000-01-01). -/
def civilFromDay (n : Nat) : Nat × Nat × Nat :=
  let yr := findYearAux (n + 1) 0 n
  let md := findMonthAux 11 yr.1 1 yr.2
  (yr.1, md.1, md.2 + 1)

/-- The decimal digit character for `n % 10`. -/
def digitChar (n : Nat) : Char :=
  match n % 10 with
  | 0 => '0' | 1 => '1' | 2 => '2' | 3 => '3' | 4 => '4'
  | 5 => '5' | 6 => '6' | 7 => '7' | 8 => '8' | _ => '9'

/-- Two-digit zero-padded decimal rendering (for `n < 100`). -/
def pad2 (n : Nat) : List Char :=
  [digitChar (n / 10), digitChar n]

/-- Four-digit zero-padded decimal rendering (for `n < 10000`). -/
def pad4 (n : Nat) : List Char :=
  [digitChar (n / 1000), digitChar (n / 100), digitChar (n / 10), digitChar n]

/-- Renders the calendar date `y-m-d` as `YYYY-MM-DD`. -/
def formatCivil (y m d : Nat) : String :=
  String.mk (pad4 y ++ '-' :: (pad2 m ++ '-' :: pad2 d))

/-- Numeric value of a digit character. -/
def digitVal (c : Char) : Nat := c.toNat - 48

/-- Parser for the date-only ISO form `YYYY-MM-DD` accepted by
`new Date(string)`: exactly four digits, hyphen, two digits, hyphen,
two digits, with month 01–12 and day 01 up to the month's length. -/
def parseIsoDate (s : String) : Option (Nat × Nat × Nat) :=
  match s.data with
  | [y1, y2, y3, y4, s1, m1, m2, s2, d1, d2] =>
    if digitCh y1 && digitCh y2 && digitCh y3 && digitCh y4 &&
        s1.toNat == 45 && digitCh m1 && digitCh m2 &&
        s2.toNat == 45 && digitCh d1 && digitCh d2 then
      let y := ((digitVal y1 * 10 + digitVal y2) * 10 + digitVal y3) * 10 + digitVal y4
      let m := digitVal m1 * 10 + digitVal m2
      let d := digitVal d1 * 10 + digitVal d2
      if 1 ≤ m && m ≤ 12 && 1 ≤ d && d ≤ daysInMonth y m then
        some (y, m, d)
      else none
    else none
  | _ => none

/-- Number of days from 0000-01-01 to the Unix epoch 1970-01-01. -/
def epochDay : Nat := 719528

/-- Millisecond time value of UTC midnight of day number `n`. -/
def msOfDay (n : Nat) : Int :=
  ((n : Int) - (epochDay : Int)) * 86400000

/-- Model of `new Date(this.date).getTime()` on the date-only ISO
branch: `none` models an invalid date (`isNaN(parsedDate.getTime())`),
`some ms` the millisecond time value. -/
def jsDateParse (s : String) : Option Int :=
  (parseIsoDate s).map (fun c => msOfDay (dayFromCivil c.1 c.2.1 c.2.2))

/-- Model of `parsedDate.toISOString().split('T')[0]`: the `YYYY-MM-DD`
rendering of the UTC calendar date containing millisecond time `ms`. -/
def toIsoDatePart (ms : Int) : String :=
  let n := (Int.fdiv ms 86400000 + (epochDay : Int)).toNat
  let c := civilFromDay n
  formatCivil c.1 c.2.1 c.2.2

/-- The date step of `EventSchema.pre('save')` in isolation: parse the
date, reject invalid dates with the format error, otherwise rewrite to
canonical `YYYY-MM-DD`. -/
def normalizeDate (s : String) : Except String String :=
  match jsDateParse s with
  | none => Except.error "Invalid date format"
  | some ms => Except.ok (toIsoDatePart ms)

/-!
### The Event document and its pre-save transform
-/

/-- The string-valued fields of an Event document
(src/database/event.model.ts).  `mode` is kept as a string; the
`agenda`/`tags` arrays are carried but not consulted by the pre-save
hook. -/
structure EventDoc where
  title : String
  slug : String
  description : String
  overview : String
  image : String
  venue : String
  location : String
  date : String
  time : String
  mode : String
  audience : String
  agenda : List String
  organizer : String
  tags : List String
deriving Repr, DecidableEq

/-- Mongoose document state consulted by the Event pre-save hook:
`isNew` and the `isModified` flags of the fields the hook tests. -/
structure SaveCtx where
  isNew : Bool
  titleModified : Bool
  dateModified : Bool
  timeModified : Bool
deriving Repr, DecidableEq

/-- Step 1 of `EventSchema.pre('save')`: regenerate the slug from the
title when the title was modified or the record is new. -/
def afterSlug (ctx : SaveCtx) (e : EventDoc) : EventDoc :=
  if ctx.titleModified || ctx.isNew then { e with slug := slugify e.title } else e

/-- Step 2 of `EventSchema.pre('save')` as a document transform
(defined for parseable dates; the error case is handled in
`eventPreSave`): rewrite a modified date to canonical form. -/
def afterDate (ctx : SaveCtx) (e : EventDoc) : EventDoc :=
  if ctx.dateModified then
    match jsDateParse e.date with
    | some ms => { e with date := toIsoDatePart ms }
    | none => e
  else e

/-- The required fields checked by step 4 of the hook, in source
order, paired with their values. -/
def requiredFieldList (e : EventDoc) : List (String × String) :=
  [("title", e.title), ("description", e.description),
   ("overview", e.overview), ("image", e.image), ("venue", e.venue),
   ("location", e.location), ("date", e.date), ("time", e.time),
   ("mode", e.mode), ("audience", e.audience),
   ("organizer", e.organizer)]

/-- First name in the list whose value is empty (JavaScript falsy for
the string fields read by `this.get(field)`). -/
def firstMissing : List (String × String) → Option String
  | [] => none
  | (n, v) :: rest => if v = "" then some n else firstMissing rest

/-- Model of `EventSchema.pre('save')`
(src/database/event.model.ts): slug derivation, date validation and
normalization, time format validation, required-field check, in source
order.  `Except.error` models `next(new Error(...))`. -/
def eventPreSave (ctx : SaveCtx) (e0 : EventDoc) : Except String EventDoc :=
  let e1 := afterSlug ctx e0
  if ctx.dateModified && (jsDateParse e1.date).isNone then
    Except.error "Invalid date format"
  else
    let e2 := afterDate ctx e1
    if ctx.timeModified && !(timeFormatOk e2.time) then
      Except.error "Time must be in HH:MM format"
    else
      match firstMissing (requiredFieldList e2) with
      | some f => Except.error (f ++ " is required")
      | none => Except.ok e2

/-- Mongoose title-field validation (src/database/event.model.ts,
`EventSchema.title`): the `trim: true` setter runs on assignment, then
the `required` and `maxlength: 100` validators run on the stored
(trimmed) value, in that order. -/
def validateTitle (raw : String) : Except String Unit :=
  let t := String.mk (jsTrim raw.data)
  if t = "" then Except.error "Title is required"
  else if t.length > 100 then Except.error "Title cannot exceed 100 characters"
  else Except.ok ()

/-!
### The Booking document and its pre-save transform
-/

/-- A Booking document (src/database/booking.model.ts); the referenced
Event's ObjectId is modelled as a `Nat` identity. -/
structure BookingDoc where
  eventId : Nat
  email : String
deriving Repr, DecidableEq

/-- Mongoose document state consulted by the Booking pre-save hook. -/
structure BookingCtx where
  isNew : Bool
  eventIdModified : Bool
deriving Repr, DecidableEq

/-- Model of `BookingSchema.pre('save')`
(src/database/booking.model.ts): when the record is new or `eventId`
was modified, the referenced Event must exist in the store (the list of
existing Event identities); then the email is checked for presence and
format. -/
def bookingPreSave (events : List Nat) (ctx : BookingCtx) (b : BookingDoc) :
    Except String BookingDoc :=
  if (ctx.isNew || ctx.eventIdModified) && !(events.contains b.eventId) then
    Except.error "Referenced event does not exist"
  else if b.email = "" then
    Except.error "Email is required"
  else if !(emailFormatOk b.email) then
    Except.error "Invalid email format"
  else Except.ok b

/-- Saving a Booking against a store: the pre-save hook is the sole
gate on the write.  Returns the hook's outcome together with the
resulting Booking store — unchanged when the hook rejects, extended by
the document when it passes. -/
def saveBooking (events : List Nat) (bookings : List BookingDoc)
    (ctx : BookingCtx) (b : BookingDoc) :
    Except String Unit × List BookingDoc :=
  match bookingPreSave events ctx b with
  | Except.error e => (Except.error e, bookings)
  | Except.ok b2 => (Except.ok (), bookings ++ [b2])

/-!
### The MongoDB connection manager

Model of `MongoConnectionManager` (src/lib/mongodb.ts).  The cache
`connectionCache` and the liveness record `isConnected` are modelled as
association lists keyed by the connection string; connection handles
are numbered by a counter, and `created` logs every underlying
connection ever established (one entry per `mongoose.createConnection`
call). -/

/-- Lookup in an association list (JavaScript object indexing,
`undefined` as `none`). -/
def alookup {α : Type} : List (String × α) → String → Option α
  | [], _ => none
  | (k, v) :: rest, key => if k = key then some v else alookup rest key

/-- Insert or overwrite a key (JavaScript `obj[key] = v`). -/
def ainsert {α : Type} : List (String × α) → String → α → List (String × α)
  | [], key, v => [(key, v)]
  | (k, w) :: rest, key, v =>
    if k = key then (k, v) :: rest else (k, w) :: ainsert rest key v

/-- Remove a key (JavaScript `delete obj[key]`). -/
def aerase {α : Type} : List (String × α) → String → List (String × α)
  | [], _ => []
  | (k, w) :: rest, key =>
    if k = key then rest else (k, w) :: aerase rest key

/-- State of the `MongoConnectionManager` singleton. -/
structure Manager where
  cache : List (String × Nat)
  connected : List (String × Bool)
  nextId : Nat
  created : List Nat
deriving Repr, DecidableEq

/-- The manager before any connection was made. -/
def Manager.empty : Manager := ⟨[], [], 0, []⟩

/-- `getConnection(uri)`: `this.connectionCache[uri] || null`. -/
def getConnection (m : Manager) (uri : String) : Option Nat :=
  alookup m.cache uri

/-- `isConnectionAlive(uri)`: `this.isConnected[uri] === true`. -/
def isConnectionAlive (m : Manager) (uri : String) : Bool :=
  alookup m.connected uri == some true

/-- The connection's `'connected'` event handler:
`this.isConnected[uri] = true`. -/
def onConnected (m : Manager) (uri : String) : Manager :=
  { m with connected := ainsert m.connected uri true }

/-- The connection's `'error'` event handler:
`this.isConnected[uri] = false; delete this.connectionCache[uri]`. -/
def onError (m : Manager) (uri : String) : Manager :=
  { m with connected := ainsert m.connected uri false,
           cache := aerase m.cache uri }

/-- The connection's `'disconnected'` event handler:
`this.isConnected[uri] = false` — the cache entry is not removed. -/
def onDisconnected (m : Manager) (uri : String) : Manager :=
  { m with connected := ainsert m.connected uri false }

/-- The tail of `connect` past the cache check: establish a new
underlying connection (`await mongoose.createConnection`), cache it,
and return the handle.  The liveness flag is set by the later
`'connected'` event, not here. -/
def connectFresh (m : Manager) (uri : String) : Nat × Manager :=
  let id := m.nextId
  (id, { m with cache := ainsert m.cache uri id,
                nextId := id + 1,
                created := m.created ++ [id] })

/-- `connect(uri)` run to completion with no interleaving: return a
live cached entry; evict a cached entry that is not live and
re-establish; otherwise establish a fresh connection. -/
def connect (m : Manager) (uri : String) : Nat × Manager :=
  match alookup m.cache uri with
  | some c =>
    if isConnectionAlive m uri then (c, m)
    else
      connectFresh
        { m with cache := aerase m.cache uri,
                 connected := aerase m.connected uri } uri
  | none => connectFresh m uri

/-!
Interleaving model for concurrent `connect` calls.  JavaScript is
single-threaded with suspension only at `await`; `connect` suspends
exactly once, at `await mongoose.createConnection(...)`.  A task is
therefore either `idle` (not yet started), `waiting` (it ran the
synchronous prefix — the cache check — found no usable entry and is
awaiting the driver), or `done` (it completed and holds its result).
A schedule is the list of task indices in the order the event loop
runs them; running a task in state `idle` executes the cache check,
running it in state `waiting` executes the post-`await` continuation
(cache installation and return). -/

/-- Progress of one `connect(uri)` task. -/
inductive TaskState where
  | idle : TaskState
  | waiting : TaskState
  | done : Nat → TaskState
deriving Repr, DecidableEq

/-- Two concurrent `connect` calls for the same identity: the manager
plus each task's progress. -/
structure ConcState where
  mgr : Manager
  task0 : TaskState
  task1 : TaskState
deriving Repr, DecidableEq

/-- One event-loop step of task `i` of `connect uri`. -/
def stepTask (uri : String) (s : ConcState) (i : Nat) : ConcState :=
  let run : TaskState → Manager → TaskState × Manager := fun t m =>
    match t with
    | TaskState.idle =>
      match alookup m.cache uri with
      | some c =>
        if isConnectionAlive m uri then (TaskState.done c, m)
        else
          (TaskState.waiting,
           { m with cache := aerase m.cache uri,
                    connected := aerase m.connected uri })
      | none => (TaskState.waiting, m)
    | TaskState.waiting =>
      let r := connectFresh m uri
      (TaskState.done r.1, r.2)
    | TaskState.done c => (TaskState.done c, m)
  if i = 0 then
    let r := run s.task0 s.mgr
    { s with task0 := r.1, mgr := r.2 }
  else
    let r := run s.task1 s.mgr
    { s with task1 := r.1, mgr := r.2 }

/-- Run a schedule of event-loop steps. -/
def runSchedule (uri : String) (s : ConcState) : List Nat → ConcState
  | [] => s
  | i :: rest => runSchedule uri (stepTask uri s i) rest

/-- Both tasks idle over an empty manager: the never-yet-cached
identity scenario. -/
def initConc : ConcState :=
  ⟨Manager.empty, TaskState.idle, TaskState.idle⟩

/-- A concrete fully-populated Event document used to exercise the
pre-save transform. -/
def sampleEvent : EventDoc :=
  { title := "Tech Summit", slug := "", description := "desc",
    overview := "ov", image := "img.png", venue := "Hall",
    location := "City", date := "2024-05-15", time := "09:00",
    mode := "offline", audience := "devs", agenda := ["a"],
    organizer := "Org", tags := ["t"] }

/-!
### Helper lemmas
-/

theorem afterSlug_time (ctx : SaveCtx) (e : EventDoc) :
    (afterSlug ctx e).time = e.time := by
  unfold afterSlug; split <;> rfl

theorem afterSlug_date (ctx : SaveCtx) (e : EventDoc) :
    (afterSlug ctx e).date = e.date := by
  unfold afterSlug; split <;> rfl

theorem afterDate_time (ctx : SaveCtx) (e : EventDoc) :
    (afterDate ctx e).time = e.time := by
  unfold afterDate
  split
  · cases jsDateParse e.date <;> rfl
  · rfl

theorem afterDate_slug (ctx : SaveCtx) (e : EventDoc) :
    (afterDate ctx e).slug = e.slug := by
  unfold afterDate
  split
  · cases jsDateParse e.date <;> rfl
  · rfl

/-- A successful run of the Event pre-save hook returns exactly the
document after the slug and date rewrites. -/
theorem eventPreSave_ok_eq (ctx : SaveCtx) (e e2 : EventDoc)
    (h : eventPreSave ctx e = Except.ok e2) :
    e2 = afterDate ctx (afterSlug ctx e) := by
  simp only [eventPreSave] at h
  split at h
  · exact absurd h (by simp)
  · split at h
    · exact absurd h (by simp)
    · split at h
      · exact absurd h (by simp)
      · exact (Except.ok.inj h).symm

theorem alookup_not_mem {α : Type} {l : List (String × α)} {k : String}
    (h : ¬ k ∈ l.map Prod.fst) : alookup l k = none := by
  induction l with
  | nil => rfl
  | cons hd tl ih =>
    simp only [List.map_cons, List.mem_cons] at h
    push_neg at h
    unfold alookup
    rw [if_neg (fun he => h.1 he.symm)]
    exact ih h.2

theorem alookup_aerase {α : Type} {l : List (String × α)} {k : String}
    (h : (l.map Prod.fst).Nodup) : alookup (aerase l k) k = none := by
  induction l with
  | nil => rfl
  | cons hd tl ih =>
    simp only [List.map_cons, List.nodup_cons] at h
    unfold aerase
    by_cases he : hd.1 = k
    · rw [if_pos he]
      exact alookup_not_mem (he ▸ h.1)
    · rw [if_neg he]
      unfold alookup
      rw [if_neg he]
      exact ih h.2

/-!
### Claim theorems
-/

/-- C1.  The slug transform does not trim a single leading hyphen: the
`^--` alternative of `replace(^-- or -$, '')` can only remove a leading
hyphen pair, yet the preceding hyphen-collapsing step guarantees no
pair remains, so a title beginning with a hyphen yields a slug that
begins with a hyphen — contradicting the specified
"no leading hyphen". -/
theorem slug_leading_hyphen_not_trimmed :
    slugify "-event" = "-event" ∧
      (slugify "-event").data.head? = some '-' := by decide

/-- C3 counterexample.  After a `'disconnected'` event the entry is
dead (`isConnectionAlive` is false) yet `getConnection` still returns
it, contradicting "a dead entry is never returned to a caller by any
lookup operation". -/
theorem dead_entry_after_disconnect_counterexample :
    isConnectionAlive
        (onDisconnected (onConnected
          (connect Manager.empty "mongodb://db").2 "mongodb://db")
          "mongodb://db") "mongodb://db" = false ∧
      getConnection
        (onDisconnected (onConnected
          (connect Manager.empty "mongodb://db").2 "mongodb://db")
          "mongodb://db") "mongodb://db" = some 0 := by decide

/-- C3 amended.  A dead entry behaves asymmetrically: (1) after a
driver-reported `'error'` event the entry is evicted, so
`getConnection` returns absent; (2) after a `'disconnected'` event the
entry stays in the cache and `getConnection` still returns it; (3) a
not-live entry is never returned by `connect` — `connect` evicts it
lazily and establishes a fresh underlying connection. -/
theorem dead_entry_eviction_amended :
    (∀ (m : Manager) (uri : String), (m.cache.map Prod.fst).Nodup →
        getConnection (onError m uri) uri = none) ∧
      (∀ (m : Manager) (uri : String),
        getConnection (onDisconnected m uri) uri = getConnection m uri) ∧
      (∀ (m : Manager) (uri : String), isConnectionAlive m uri = false →
        (connect m uri).1 = m.nextId ∧
          (connect m uri).2.created = m.created ++ [m.nextId]) := by
  refine ⟨fun m uri h => alookup_aerase h, fun m uri => rfl, fun m uri h => ?_⟩
  unfold connect
  cases hc : alookup m.cache uri with
  | none => exact ⟨rfl, rfl⟩
  | some c => simp [h, connectFresh]

/-- Witness for `dead_entry_eviction_amended` at concrete inputs. -/
theorem dead_entry_eviction_amended_witness :
    getConnection (onError (connect Manager.empty "u").2 "u") "u" = none ∧
      ((connect (onDisconnected (onConnected
          (connect Manager.empty "u").2 "u") "u") "u").1 = 1 ∧
        (connect (onDisconnected (onConnected
          (connect Manager.empty "u").2 "u") "u") "u").2.created = [0, 1]) :=
  ⟨dead_entry_eviction_amended.1 _ "u" (by decide),
    (dead_entry_eviction_amended.2.2 _ "u" (by decide)).1,
    (dead_entry_eviction_amended.2.2 _ "u" (by decide)).2⟩

/-- C4.  Two concurrent `connect` calls for a never-yet-cached identity
each pass the cache check before either installs its connection
(schedule: check₀, check₁, establish₀, establish₁); the code then
establishes two underlying connections and the callers receive
distinct handles — the race the spec flags as a gap in the reference
implementation.  By contrast, once the first connection's
`'connected'` event has fired, a later `connect` reuses the cached
handle without establishing a new connection. -/
theorem concurrent_connect_duplicates_connections :
    ((runSchedule "u" initConc [0, 1, 0, 1]).mgr.created = [0, 1] ∧
      (runSchedule "u" initConc [0, 1, 0, 1]).task0 = TaskState.done 0 ∧
      (runSchedule "u" initConc [0, 1, 0, 1]).task1 = TaskState.done 1) ∧
      (connect (onConnected (connect Manager.empty "u").2 "u") "u").1 = 0 ∧
      (connect (onConnected (connect Manager.empty "u").2 "u") "u").2.created
        = [0] := by decide

/-- C6.  A new Booking (or one whose Event reference was modified)
whose `eventId` matches no existing Event is rejected with the
referential-integrity error, and the Booking store is unchanged. -/
theorem booking_missing_event_rejected
    (events : List Nat) (bookings : List BookingDoc)
    (ctx : BookingCtx) (b : BookingDoc)
    (hflag : ctx.isNew = true ∨ ctx.eventIdModified = true)
    (hmem : ¬ b.eventId ∈ events) :
    saveBooking events bookings ctx b =
      (Except.error "Referenced event does not exist", bookings) := by
  have hc : events.contains b.eventId = false := by
    simp [List.contains, List.elem_eq_mem]
    exact hmem
  unfold saveBooking bookingPreSave
  rcases hflag with h | h <;> rw [h] <;> simp [hc, hmem]

/-- Witness for `booking_missing_event_rejected` at concrete inputs. -/
theorem booking_missing_event_rejected_witness :
    saveBooking [3, 7] [] ⟨true, false⟩ ⟨5, "a@b.co"⟩ =
      (Except.error "Referenced event does not exist", []) :=
  booking_missing_event_rejected [3, 7] [] ⟨true, false⟩ ⟨5, "a@b.co"⟩
    (Or.inl rfl) (by decide)

/-- C9.  When the title was not modified and the record is not new, a
successful save leaves the slug unchanged, whatever other fields were
edited. -/
theorem slug_unchanged_when_title_untouched
    (ctx : SaveCtx) (e e2 : EventDoc)
    (h1 : ctx.titleModified = false) (h2 : ctx.isNew = false)
    (h : eventPreSave ctx e = Except.ok e2) :
    e2.slug = e.slug := by
  have he1 : afterSlug ctx e = e := by simp [afterSlug, h1, h2]
  rw [eventPreSave_ok_eq ctx e e2 h, afterDate_slug, he1]

/-- Witness for `slug_unchanged_when_title_untouched` at a concrete
input. -/
theorem slug_unchanged_when_title_untouched_witness :
    ({ sampleEvent with slug := "old-slug", venue := "Other" } :
        EventDoc).slug = "old-slug" := by
  have h : eventPreSave ⟨false, false, false, false⟩
      { sampleEvent with slug := "old-slug", venue := "Other" } =
      Except.ok { sampleEvent with slug := "old-slug", venue := "Other" } := by
    rfl
  exact slug_unchanged_when_title_untouched ⟨false, false, false, false⟩
    { sampleEvent with slug := "old-slug", venue := "Other" }
    { sampleEvent with slug := "old-slug", venue := "Other" } rfl rfl h

/-- C10 counterexample.  A payload title of 101 characters (100 `a`s
and a trailing space) is longer than 100 characters, yet creation is
accepted: the `trim: true` setter runs before the `maxlength`
validator, and the trimmed value has length 100. -/
theorem title_maxlength_raw_counterexample :
    (String.mk (List.replicate 100 'a' ++ [' '])).length = 101 ∧
      validateTitle (String.mk (List.replicate 100 'a' ++ [' '])) =
        Except.ok () := ⟨by decide, by rfl⟩

/-- C10 amended.  A title whose trimmed value is longer than 100
characters is rejected with the maxlength validation error. -/
theorem title_maxlength_trimmed_amended (s : String)
    (h : 100 < (String.mk (jsTrim s.data)).length) :
    validateTitle s = Except.error "Title cannot exceed 100 characters" := by
  simp only [validateTitle]
  split
  · next heq => rw [heq] at h; simp at h
  · rfl

/-- Witness for `title_maxlength_trimmed_amended` at a concrete
input. -/
theorem title_maxlength_trimmed_amended_witness :
    validateTitle (String.mk (List.replicate 101 'b')) =
      Except.error "Title cannot exceed 100 characters" :=
  title_maxlength_trimmed_amended (String.mk (List.replicate 101 'b'))
    (by decide)

theorem char_eq_of_toNat_eq {c d : Char} (h : c.toNat = d.toNat) : c = d :=
  Char.ext (UInt32.ext h)

/-- C2 counterexample.  The time regex accepts `"9:05"` — a value that
is not two-digit `HH:MM` — because the leading `[01]?` is optional. -/
theorem time_regex_strict_hhmm_counterexample :
    timeFormatOk "9:05" = true ∧ specStrictHHMM "9:05" = false := by decide

/-- C2 amended.  The pre-save time check accepts exactly the strict
two-digit `HH:MM` values (hours 00–23, minutes 00–59) together with the
one-digit-hour values `H:MM` (hours 0–9); `"9:5"` and `"24:00"` are
rejected, `"09:05"` and `"23:59"` accepted; an accepted value is stored
unchanged. -/
theorem time_regex_iff_optional_leading_zero :
    (∀ s : String, timeFormatOk s = true ↔
        (specStrictHHMM s = true ∨ specSingleDigitHourHMM s = true)) ∧
      timeFormatOk "9:5" = false ∧ timeFormatOk "24:00" = false ∧
      timeFormatOk "09:05" = true ∧ timeFormatOk "23:59" = true ∧
      (∀ (ctx : SaveCtx) (e e2 : EventDoc),
        eventPreSave ctx e = Except.ok e2 → e2.time = e.time) := by
  refine ⟨fun s => ?_, by decide, by decide, by decide, by decide,
    fun ctx e e2 h => ?_⟩
  · unfold timeFormatOk specStrictHHMM specSingleDigitHourHMM digitCh
    rcases s.data with _ | ⟨c1, _ | ⟨c2, _ | ⟨c3, _ | ⟨c4, _ | ⟨c5, _ | ⟨c6, l⟩⟩⟩⟩⟩⟩ <;>
      simp <;> omega
  · rw [eventPreSave_ok_eq ctx e e2 h, afterDate_time, afterSlug_time]

theorem splitAtCode_sound {t : Nat} {l p q : List Char}
    (h : splitAtCode t l = some (p, q)) :
    (∀ x ∈ p, x.toNat ≠ t) ∧ ∃ c0 : Char, c0.toNat = t ∧ l = p ++ c0 :: q := by
  induction l generalizing p with
  | nil => exact absurd h (by simp [splitAtCode])
  | cons c cs ih =>
    unfold splitAtCode at h
    by_cases hc : c.toNat = t
    · rw [if_pos (by simpa using hc)] at h
      simp only [Option.some.injEq, Prod.mk.injEq] at h
      obtain ⟨h1, h2⟩ := h
      subst h1; subst h2
      exact ⟨by simp, c, hc, rfl⟩
    · rw [if_neg (by simpa using hc)] at h
      cases hs : splitAtCode t cs with
      | none => rw [hs] at h; cases h
      | some pq =>
        obtain ⟨p1, q1⟩ := pq
        rw [hs] at h
        simp only [Option.some.injEq, Prod.mk.injEq] at h
        obtain ⟨h1, h2⟩ := h
        subst h2
        obtain ⟨ha, c0, hc0, hl⟩ := ih (p := p1) hs
        refine ⟨?_, c0, hc0, ?_⟩
        · intro x hx
          rw [← h1] at hx
          rcases List.mem_cons.mp hx with hx | hx
          · exact hx ▸ hc
          · exact ha x hx
        · rw [← h1, hl]; rfl

theorem splitAtCode_complete {t : Nat} {q : List Char} {c0 : Char}
    (p : List Char) (hp : ∀ x ∈ p, x.toNat ≠ t) (hc : c0.toNat = t) :
    splitAtCode t (p ++ c0 :: q) = some (p, q) := by
  induction p with
  | nil => simp [splitAtCode, hc]
  | cons c cs ih =>
    have hcn : c.toNat ≠ t := hp c (by simp)
    have ih2 := ih (fun x hx => hp x (List.mem_cons_of_mem c hx))
    rw [List.cons_append]
    unfold splitAtCode
    rw [if_neg (by simpa using hcn), ih2]

theorem dotWithSuffix_iff (l : List Char) :
    dotWithSuffix l = true ↔ ∃ m b : List Char, l = m ++ '.' :: b ∧ b ≠ [] := by
  induction l with
  | nil =>
    constructor
    · intro h
      exact absurd h (by decide)
    · rintro ⟨m, b, hmb, _⟩
      exact absurd hmb (by simp)
  | cons c cs ih =>
    unfold dotWithSuffix
    simp only [Bool.or_eq_true, Bool.and_eq_true]
    constructor
    · intro h
      rcases h with ⟨h46, hne⟩ | h2
      · have hcd : c = '.' := char_eq_of_toNat_eq (by simpa using h46)
        refine ⟨[], cs, by rw [hcd]; rfl, ?_⟩
        intro hcon
        rw [hcon] at hne
        exact absurd hne (by decide)
      · obtain ⟨m, b, hmb, hb⟩ := ih.mp h2
        exact ⟨c :: m, b, by rw [hmb]; rfl, hb⟩
    · rintro ⟨m, b, hmb, hb⟩
      cases m with
      | nil =>
        simp only [List.nil_append, List.cons.injEq] at hmb
        obtain ⟨hc1, hcs⟩ := hmb
        left
        refine ⟨by rw [hc1]; rfl, ?_⟩
        rw [hcs]
        simpa using hb
      | cons x m1 =>
        simp only [List.cons_append, List.cons.injEq] at hmb
        obtain ⟨hc1, hcs⟩ := hmb
        right
        exact ih.mpr ⟨m1, b, hcs, hb⟩

theorem emailAtomCh_ne_at {x : Char} (h : emailAtomCh x = true) :
    x.toNat ≠ 64 := by
  unfold emailAtomCh at h
  simp only [Bool.and_eq_true] at h
  simpa using h.2

/-- C7.  The email check accepts exactly the strings that decompose as
`local @ middle . rest` with all three parts non-empty sequences of
non-space/non-`@` characters; `"not-an-email"` is rejected by the
Booking pre-save hook with the format error and `"a@b.co"` is accepted
(given an existing Event). -/
theorem email_regex_iff_decomposition :
    (∀ s : String, emailFormatOk s = true ↔
        ∃ a m b : List Char,
          s.data = a ++ '@' :: (m ++ '.' :: b) ∧ a ≠ [] ∧ m ≠ [] ∧ b ≠ [] ∧
            a.all emailAtomCh = true ∧ m.all emailAtomCh = true ∧
            b.all emailAtomCh = true) ∧
      bookingPreSave [5] ⟨true, false⟩ ⟨5, "not-an-email"⟩ =
        Except.error "Invalid email format" ∧
      bookingPreSave [5] ⟨true, false⟩ ⟨5, "a@b.co"⟩ =
        Except.ok ⟨5, "a@b.co"⟩ := by
  refine ⟨fun s => ?_, by rfl, by rfl⟩
  constructor
  · intro h
    unfold emailFormatOk at h
    cases hs : splitAtCode 64 s.data with
    | none => rw [hs] at h; cases h
    | some pq =>
      obtain ⟨loc, dom⟩ := pq
      rw [hs] at h
      simp only [Bool.and_eq_true] at h
      obtain ⟨⟨⟨hne, hloc⟩, hdom⟩, hmatch⟩ := h
      cases dom with
      | nil => cases hmatch
      | cons d tail =>
        obtain ⟨m1, b, htail, hb⟩ := (dotWithSuffix_iff tail).mp hmatch
        obtain ⟨hpne, c0, hc0, hl⟩ := splitAtCode_sound hs
        have hc0at : c0 = '@' := char_eq_of_toNat_eq (by rw [hc0]; rfl)
        rw [htail] at hdom
        simp only [List.all_cons, List.all_append, Bool.and_eq_true] at hdom
        obtain ⟨hd, hm1, _, hball⟩ := hdom
        refine ⟨loc, d :: m1, b, ?_, ?_, by simp, hb, hloc, ?_, hball⟩
        · rw [hl, hc0at, htail]
          rfl
        · intro hcon
          rw [hcon] at hne
          exact absurd hne (by decide)
        · simp only [List.all_cons, Bool.and_eq_true]
          exact ⟨hd, hm1⟩
  · rintro ⟨a, m, b, hdata, ha, hm, hb, haall, hmall, hball⟩
    unfold emailFormatOk
    have hsplit : splitAtCode 64 s.data = some (a, m ++ '.' :: b) := by
      rw [hdata]
      exact splitAtCode_complete a
        (fun x hx => emailAtomCh_ne_at (List.all_eq_true.mp haall x hx)) rfl
    rw [hsplit]
    simp only [Bool.and_eq_true]
    refine ⟨⟨⟨?_, haall⟩, ?_⟩, ?_⟩
    · cases a with
      | nil => exact absurd rfl ha
      | cons x xs => rfl
    · simp only [List.all_append, List.all_cons, Bool.and_eq_true]
      exact ⟨hmall, by decide, hball⟩
    · cases m with
      | nil => exact absurd rfl hm
      | cons x m1 =>
        show dotWithSuffix (m1 ++ '.' :: b) = true
        exact (dotWithSuffix_iff _).mpr ⟨m1, b, rfl, hb⟩

/-- C8 counterexample.  A record whose only absent required field is a
modified empty `date` is rejected by the earlier date check with
"Invalid date format", not with the "date is required" message the
claim demands for the first missing field. -/
theorem required_fields_date_error_counterexample :
    eventPreSave ⟨true, true, true, true⟩ { sampleEvent with date := "" } =
        Except.error "Invalid date format" ∧
      firstMissing (requiredFieldList { sampleEvent with date := "" }) =
        some "date" := ⟨by rfl, by rfl⟩

/-- C8 amended.  Provided a modified date parses and a modified time
passes the format check, the pre-save transform rejects with an error
naming the first absent required field (checked on the document after
the slug and date rewrites), and passes the check when every required
field is non-empty. -/
theorem required_fields_first_missing_amended (ctx : SaveCtx) (e : EventDoc)
    (hd : ctx.dateModified = true → (jsDateParse e.date).isNone = false)
    (ht : ctx.timeModified = true → timeFormatOk e.time = true) :
    eventPreSave ctx e =
      match firstMissing (requiredFieldList (afterDate ctx (afterSlug ctx e))) with
      | some f => Except.error (f ++ " is required")
      | none => Except.ok (afterDate ctx (afterSlug ctx e)) := by
  have h1 : (ctx.dateModified && (jsDateParse (afterSlug ctx e).date).isNone)
      = false := by
    rw [afterSlug_date]
    cases hm : ctx.dateModified
    · rfl
    · simp [hd hm]
  have h2 : (ctx.timeModified &&
      !(timeFormatOk (afterDate ctx (afterSlug ctx e)).time)) = false := by
    rw [afterDate_time, afterSlug_time]
    cases hm : ctx.timeModified
    · rfl
    · simp [ht hm]
  simp [eventPreSave, h1, h2]

/-- Witness for `required_fields_first_missing_amended` at a concrete
input: an otherwise valid new Event with an empty venue is rejected
naming `venue`. -/
theorem required_fields_first_missing_amended_witness :
    eventPreSave ⟨true, false, false, false⟩ { sampleEvent with venue := "" } =
      Except.error "venue is required" := by
  have h := required_fields_first_missing_amended ⟨true, false, false, false⟩
    { sampleEvent with venue := "" }
    (fun hc => absurd hc (by decide)) (fun hc => absurd hc (by decide))
  rw [h]
  rfl

/-!
### Calendar lemmas for date normalization
-/

theorem isLeapYear_iff (y : Nat) :
    isLeapYear y = true ↔ (y % 4 = 0 ∧ y % 100 ≠ 0) ∨ y % 400 = 0 := by
  unfold isLeapYear
  simp [Bool.or_eq_true, Bool.and_eq_true]

theorem yearStart_succ (y : Nat) :
    yearStart (y + 1) = yearStart y + daysInYear y := by
  unfold yearStart daysInYear leapsBefore
  split
  · next hleap =>
    have h := (isLeapYear_iff y).mp hleap
    omega
  · next hnot =>
    have h : ¬ ((y % 4 = 0 ∧ y % 100 ≠ 0) ∨ y % 400 = 0) :=
      fun hc => hnot ((isLeapYear_iff y).mpr hc)
    omega

theorem yearStart_mono {a b : Nat} (h : a ≤ b) : yearStart a ≤ yearStart b := by
  unfold yearStart leapsBefore
  omega

theorem le_yearStart (y : Nat) : y ≤ yearStart y := by
  unfold yearStart leapsBefore
  omega

theorem daysInYear_pos (y : Nat) : 365 ≤ daysInYear y := by
  unfold daysInYear
  split <;> omega

theorem findYearAux_spec (Y k : Nat) (hk : k < daysInYear Y) :
    ∀ fuel y0, y0 ≤ Y → Y - y0 ≤ fuel →
      findYearAux fuel y0 (yearStart Y - yearStart y0 + k) = (Y, k) := by
  intro fuel
  induction fuel with
  | zero =>
    intro y0 hy hf
    have he : y0 = Y := by omega
    subst he
    simp [findYearAux]
  | succ f ih =>
    intro y0 hy hf
    by_cases he : y0 = Y
    · subst he
      unfold findYearAux
      rw [if_pos (by simpa [Nat.sub_self] using hk)]
      simp
    · have hlt : y0 < Y := lt_of_le_of_ne hy he
      have hstep := yearStart_succ y0
      have hle : yearStart (y0 + 1) ≤ yearStart Y := yearStart_mono hlt
      unfold findYearAux
      rw [if_neg (by omega)]
      have harith : yearStart Y - yearStart y0 + k - daysInYear y0 =
          yearStart Y - yearStart (y0 + 1) + k := by omega
      rw [harith]
      exact ih (y0 + 1) (by omega) (by omega)

theorem monthStart_succ (y m : Nat) (h : 1 ≤ m) :
    monthStart y (m + 1) = monthStart y m + daysInMonth y m := by
  cases m with
  | zero => omega
  | succ m0 => rfl

theorem monthStart_mono (y : Nat) {a b : Nat} (h1 : 1 ≤ a) (h : a ≤ b) :
    monthStart y a ≤ monthStart y b := by
  induction b with
  | zero => exact absurd (le_trans h1 h) (by decide)
  | succ b0 ih =>
    by_cases he : a = b0 + 1
    · rw [he]
    · have ha : a ≤ b0 := by omega
      have hb0 : 1 ≤ b0 := le_trans h1 ha
      calc monthStart y a ≤ monthStart y b0 := ih ha
        _ ≤ monthStart y (b0 + 1) := by rw [monthStart_succ y b0 hb0]; omega

theorem monthStart_13 (y : Nat) : monthStart y 13 = daysInYear y := by
  unfold daysInYear
  by_cases h : isLeapYear y = true
  · simp [monthStart, daysInMonth, h]
  · have h2 : isLeapYear y = false := by
      cases hb : isLeapYear y
      · rfl
      · exact absurd hb h
    simp [monthStart, daysInMonth, h2]

theorem daysInMonth_le_31 (y m : Nat) : daysInMonth y m ≤ 31 := by
  unfold daysInMonth
  split
  · split <;> omega
  · split <;> omega

theorem findMonthAux_spec (y M k : Nat) (hk : k < daysInMonth y M) :
    ∀ count m0, 1 ≤ m0 → m0 ≤ M → M - m0 ≤ count →
      findMonthAux count y m0 (monthStart y M - monthStart y m0 + k) = (M, k) := by
  intro count
  induction count with
  | zero =>
    intro m0 h1 h2 h3
    have he : m0 = M := by omega
    subst he
    simp [findMonthAux]
  | succ c ih =>
    intro m0 h1 h2 h3
    by_cases he : m0 = M
    · subst he
      unfold findMonthAux
      rw [if_pos (by simpa [Nat.sub_self] using hk)]
      simp
    · have hlt : m0 < M := lt_of_le_of_ne h2 he
      have hstep := monthStart_succ y m0 h1
      have hle : monthStart y (m0 + 1) ≤ monthStart y M :=
        monthStart_mono y (by omega) (by omega)
      unfold findMonthAux
      rw [if_neg (by omega)]
      have harith : monthStart y M - monthStart y m0 + k - daysInMonth y m0 =
          monthStart y M - monthStart y (m0 + 1) + k := by omega
      rw [harith]
      exact ih (m0 + 1) (by omega) (by omega) (by omega)

theorem civilFromDay_dayFromCivil (y m d : Nat) (hm1 : 1 ≤ m) (hm2 : m ≤ 12)
    (hd1 : 1 ≤ d) (hd2 : d ≤ daysInMonth y m) :
    civilFromDay (dayFromCivil y m d) = (y, m, d) := by
  have hin : monthStart y m + (d - 1) < daysInYear y := by
    have h13 := monthStart_mono y (a := m + 1) (b := 13) (by omega) (by omega)
    have hstep := monthStart_succ y m hm1
    have htot := monthStart_13 y
    omega
  have hyear := findYearAux_spec y (monthStart y m + (d - 1)) hin
    (dayFromCivil y m d + 1) 0 (Nat.zero_le y)
    (by have := le_yearStart y; unfold dayFromCivil; omega)
  have hzero : yearStart 0 = 0 := rfl
  rw [hzero, Nat.sub_zero] at hyear
  have harg : yearStart y + (monthStart y m + (d - 1)) = dayFromCivil y m d := by
    unfold dayFromCivil
    omega
  rw [harg] at hyear
  have hmonth := findMonthAux_spec y m (d - 1) (by omega) 11 1 (by omega)
    hm1 (by omega)
  have hm1z : monthStart y 1 = 0 := rfl
  rw [hm1z, Nat.sub_zero] at hmonth
  unfold civilFromDay
  rw [hyear]
  simp only
  rw [hmonth]
  simp only
  rw [show d - 1 + 1 = d from by omega]

theorem digitChar_toNat (n : Nat) : (digitChar n).toNat = 48 + n % 10 := by
  have h : n % 10 = 0 ∨ n % 10 = 1 ∨ n % 10 = 2 ∨ n % 10 = 3 ∨ n % 10 = 4 ∨
      n % 10 = 5 ∨ n % 10 = 6 ∨ n % 10 = 7 ∨ n % 10 = 8 ∨ n % 10 = 9 := by
    omega
  rcases h with h | h | h | h | h | h | h | h | h | h <;>
    simp [digitChar, h]

theorem digitCh_digitChar (k : Nat) : digitCh (digitChar k) = true := by
  simp only [digitCh, digitChar_toNat, Bool.and_eq_true, decide_eq_true_eq]
  omega

theorem digitVal_digitChar (k : Nat) : digitVal (digitChar k) = k % 10 := by
  simp only [digitVal, digitChar_toNat]
  omega

theorem read4_pad4 {y : Nat} (hy : y ≤ 9999) :
    ((digitVal (digitChar (y / 1000)) * 10 + digitVal (digitChar (y / 100)))
        * 10 + digitVal (digitChar (y / 10))) * 10 + digitVal (digitChar y)
      = y := by
  simp only [digitVal_digitChar]
  omega

theorem read2_pad2 {n : Nat} (hn : n ≤ 99) :
    digitVal (digitChar (n / 10)) * 10 + digitVal (digitChar n) = n := by
  simp only [digitVal_digitChar]
  omega

theorem parseIsoDate_formatCivil (y m d : Nat) (hy : y ≤ 9999) (hm1 : 1 ≤ m)
    (hm2 : m ≤ 12) (hd1 : 1 ≤ d) (hd2 : d ≤ daysInMonth y m) :
    parseIsoDate (formatCivil y m d) = some (y, m, d) := by
  have hd99 : d ≤ 99 := le_trans hd2 (le_trans (daysInMonth_le_31 y m) (by omega))
  unfold formatCivil parseIsoDate
  simp only [pad4, pad2, List.cons_append, List.nil_append]
  rw [if_pos]
  · rw [read4_pad4 hy, read2_pad2 (by omega : m ≤ 99), read2_pad2 hd99]
    rw [if_pos]
    simp only [Bool.and_eq_true, decide_eq_true_eq]
    exact ⟨⟨⟨hm1, hm2⟩, hd1⟩, hd2⟩
  · simp [digitCh_digitChar]

theorem parseIsoDate_valid {s : String} {y m d : Nat}
    (h : parseIsoDate s = some (y, m, d)) :
    1 ≤ m ∧ m ≤ 12 ∧ 1 ≤ d ∧ d ≤ daysInMonth y m ∧ y ≤ 9999 := by
  unfold parseIsoDate at h
  split at h
  · split at h
    · next hdigits =>
      dsimp only at h
      split at h
      · next hbounds =>
        simp only [Option.some.injEq, Prod.mk.injEq] at h
        simp only [Bool.and_eq_true, decide_eq_true_eq] at hbounds hdigits
        obtain ⟨hyv, hmv, hdv⟩ := h
        obtain ⟨⟨⟨hb1, hb2⟩, hb3⟩, hb4⟩ := hbounds
        obtain ⟨⟨⟨⟨⟨⟨⟨⟨⟨hc1, hc2⟩, hc3⟩, hc4⟩, _⟩, _⟩, _⟩, _⟩, _⟩, _⟩
          := hdigits
        subst hyv; subst hmv; subst hdv
        refine ⟨hb1, hb2, hb3, hb4, ?_⟩
        simp only [digitCh, Bool.and_eq_true, decide_eq_true_eq] at hc1 hc2 hc3 hc4
        unfold digitVal
        omega
      · cases h
    · cases h
  · cases h

theorem msOfDay_day (n : Nat) :
    (Int.fdiv (msOfDay n) 86400000 + (epochDay : Int)).toNat = n := by
  unfold msOfDay
  rw [Int.mul_fdiv_cancel _ (by norm_num)]
  omega

theorem toIsoDatePart_msOfDay (y m d : Nat) (hm1 : 1 ≤ m) (hm2 : m ≤ 12)
    (hd1 : 1 ≤ d) (hd2 : d ≤ daysInMonth y m) :
    toIsoDatePart (msOfDay (dayFromCivil y m d)) = formatCivil y m d := by
  unfold toIsoDatePart
  rw [msOfDay_day]
  show formatCivil (civilFromDay (dayFromCivil y m d)).1
      (civilFromDay (dayFromCivil y m d)).2.1
      (civilFromDay (dayFromCivil y m d)).2.2 = formatCivil y m d
  rw [civilFromDay_dayFromCivil y m d hm1 hm2 hd1 hd2]

/-- C5.  Date normalization is idempotent: a successful normalization
returns a canonical `YYYY-MM-DD` string that normalizes to itself; and
when the date is modified and unparseable, the pre-save transform
rejects with the format error. -/
theorem date_normalization_idempotent :
    (∀ s c : String, normalizeDate s = Except.ok c →
        normalizeDate c = Except.ok c) ∧
      (∀ (ctx : SaveCtx) (e : EventDoc), ctx.dateModified = true →
        jsDateParse e.date = none →
        eventPreSave ctx e = Except.error "Invalid date format") := by
  constructor
  · intro s c h
    unfold normalizeDate at h
    cases hp : jsDateParse s with
    | none => rw [hp] at h; cases h
    | some ms =>
      rw [hp] at h
      have hc : c = toIsoDatePart ms := (Except.ok.inj h).symm
      unfold jsDateParse at hp
      cases hq : parseIsoDate s with
      | none => rw [hq] at hp; cases hp
      | some t =>
        obtain ⟨y, m, d⟩ := t
        rw [hq] at hp
        have hms : msOfDay (dayFromCivil y m d) = ms := Option.some.inj hp
        obtain ⟨hm1, hm2, hd1, hd2, hy⟩ := parseIsoDate_valid hq
        subst hc
        rw [← hms, toIsoDatePart_msOfDay y m d hm1 hm2 hd1 hd2]
        unfold normalizeDate jsDateParse
        rw [parseIsoDate_formatCivil y m d hy hm1 hm2 hd1 hd2]
        show Except.ok (toIsoDatePart (msOfDay (dayFromCivil y m d))) = _
        rw [toIsoDatePart_msOfDay y m d hm1 hm2 hd1 hd2]
  · intro ctx e hmod hparse
    have hnone : (jsDateParse (afterSlug ctx e).date).isNone = true := by
      rw [afterSlug_date, hparse]
      rfl
    simp [eventPreSave, hmod, hnone]

/-- Witness for `date_normalization_idempotent` at concrete inputs:
the leap-day `"0004-02-29"` normalizes to itself, and a record with the
unparseable modified date `"x"` is rejected. -/
theorem date_normalization_idempotent_witness :
    normalizeDate "0004-02-29" = Except.ok "0004-02-29" ∧
      eventPreSave ⟨true, true, true, true⟩ { sampleEvent with date := "x" } =
        Except.error "Invalid date format" :=
  ⟨date_normalization_idempotent.1 "0004-02-29" "0004-02-29" (by rfl),
    date_normalization_idempotent.2 ⟨true, true, true, true⟩
      { sampleEvent with date := "x" } rfl (by rfl)⟩

end DevEvent
